import Mathlib

/-!
# Expense tracker: ledger, filters, aggregates and budgets

A shallow embedding of the logic of `script.js` (class `ExpenseTracker`).

Modelling conventions.

* A JavaScript string is a Lean `String`, a character standing for a UTF-16 code unit (the
  two agree on text of the basic multilingual plane); `substring(0, 7)` takes the first seven
  characters, `includes` is contiguous-sublist search.  The default `sort()` of an array of
  strings compares the UTF-16 code units (`utf16`).  The built-ins `toLowerCase`, the
  conversion of a number to a string and the conversion of a built-in function to a string
  are parameters of the definitions that use them.
* A JavaScript number is `JSNumber`: either `NaN` or an exact rational.  Rounding of
  IEEE doubles and the infinities are outside the model.
* A plain JavaScript object used as a dictionary is the association list of its own
  properties in insertion order (`objGet`, `objSet`).  Reading a key that is not an own
  property finds the property inherited from `Object.prototype`, if the key is one of
  `protoKeys`; writing a number or a string to `__proto__` is ignored (`objAssign`).
* The fields of the page read by an operation (`document.getElementById(..).value`), the
  answer of `confirm(..)` and the reading of `Date.now()` are explicit arguments.
  Rendering and `localStorage` are not modelled: the store is the pair of
  `this.transactions` and `this.budgets`.
-/

namespace ExpenseTracker

/-! ## Numbers -/

/-- A JavaScript number: `NaN` or a rational value. -/
inductive JSNumber where
  | nan : JSNumber
  | num (q : ℚ) : JSNumber
deriving DecidableEq

namespace JSNumber

/-- The number `0`. -/
def zero : JSNumber := num 0

/-- JavaScript `a + b` on numbers: `NaN` is absorbing. -/
def add : JSNumber → JSNumber → JSNumber
  | num a, num b => num (a + b)
  | _, _ => nan

/-- JavaScript `a - b` on numbers: `NaN` is absorbing. -/
def sub : JSNumber → JSNumber → JSNumber
  | num a, num b => num (a - b)
  | _, _ => nan

/-- JavaScript `!x` for a number `x`: true exactly for `NaN` and `0`. -/
def falsy : JSNumber → Bool
  | nan => true
  | num q => decide (q = 0)

/-- JavaScript `a <= b` on numbers: false as soon as one side is `NaN`. -/
def le : JSNumber → JSNumber → Bool
  | num a, num b => decide (a ≤ b)
  | _, _ => false

/-- JavaScript `a > b` on numbers: false as soon as one side is `NaN`. -/
def gt : JSNumber → JSNumber → Bool
  | num a, num b => decide (b < a)
  | _, _ => false

/-- The number is a positive number (in particular it is not `NaN`). -/
def Positive : JSNumber → Prop
  | num q => 0 < q
  | nan => False

instance : DecidablePred Positive := fun x =>
  match x with
  | num q => inferInstanceAs (Decidable (0 < q))
  | nan => inferInstanceAs (Decidable False)

end JSNumber

/-! ## Strings and dictionaries -/

/-- The characters removed by `String.prototype.trim`: white space and line terminators. -/
def isTrimmable (c : Char) : Bool :=
  c.toNat ∈ [0x09, 0x0A, 0x0B, 0x0C, 0x0D, 0x20, 0xA0, 0x1680, 0x2000, 0x2001, 0x2002,
    0x2003, 0x2004, 0x2005, 0x2006, 0x2007, 0x2008, 0x2009, 0x200A, 0x2028, 0x2029, 0x202F,
    0x205F, 0x3000, 0xFEFF]

/-- JavaScript `s.trim()`. -/
def trim (s : String) : String :=
  ⟨((s.data.dropWhile isTrimmable).reverse.dropWhile isTrimmable).reverse⟩

/-- JavaScript `s.substring(0, 7)`. -/
def substring07 (s : String) : String :=
  ⟨s.data.take 7⟩

/-- JavaScript `hay.includes(needle)`: some suffix of `hay` starts with `needle`. -/
def includes (hay needle : String) : Bool :=
  hay.data.tails.any (fun suffix => needle.data.isPrefixOf suffix)

/-- Lower-casing of the letters `A` to `Z`, an instance of the `toLowerCase` parameter. -/
def asciiLower (s : String) : String :=
  ⟨s.data.map Char.toLower⟩

/-- The UTF-16 code units of one character: itself below `0x10000`, a surrogate pair above. -/
def utf16Char (c : Char) : List Nat :=
  if c.toNat < 0x10000 then [c.toNat]
  else [0xD800 + (c.toNat - 0x10000) / 0x400, 0xDC00 + (c.toNat - 0x10000) % 0x400]

/-- The UTF-16 code units of a string. -/
def utf16 (s : String) : List Nat :=
  s.data.flatMap utf16Char

/-- The order used by the default `sort()` on strings, the lexicographic order of the UTF-16
code units: `a` does not come after `b`. -/
def strLe (a b : String) : Prop :=
  ¬ utf16 b < utf16 a

instance : DecidableRel strLe := fun a b =>
  inferInstanceAs (Decidable (¬ utf16 b < utf16 a))

/-- JavaScript `array.sort()` on an array of strings. -/
def sort (l : List String) : List String :=
  l.insertionSort strLe

/-- The own property `key` of a dictionary, `none` if there is none. -/
def objGet {β : Type} : List (String × β) → String → Option β
  | [], _ => none
  | (k, v) :: rest, key => if k = key then some v else objGet rest key

/-- Storing `value` as the own property `key` of a dictionary: an existing key keeps its
place, a new key is added at the end. -/
def objSet {β : Type} : List (String × β) → String → β → List (String × β)
  | [], key, value => [(key, value)]
  | (k, v) :: rest, key, value =>
    if k = key then (k, value) :: rest else (k, v) :: objSet rest key value

/-- The names of the properties that a plain object inherits from `Object.prototype`; each
of them is a function, except `__proto__`, which reads as the prototype object. -/
def protoKeys : List String :=
  ["constructor", "__defineGetter__", "__defineSetter__", "hasOwnProperty",
   "__lookupGetter__", "__lookupSetter__", "isPrototypeOf", "propertyIsEnumerable",
   "toString", "valueOf", "__proto__", "toLocaleString"]

/-- JavaScript `object[key] = value` on a plain object, for a number or a string `value`: the
inherited setter of `__proto__` ignores such a value, every other key becomes or stays an own
property. -/
def objAssign {β : Type} (object : List (String × β)) (key : String) (value : β) :
    List (String × β) :=
  if key = "__proto__" then object else objSet object key value

/-- JavaScript `Object.keys(object)`. -/
def objKeys {β : Type} (object : List (String × β)) : List String :=
  object.map Prod.fst

/-- The keys of a dictionary are pairwise distinct, as in every JavaScript object. -/
def NodupKeys {β : Type} (object : List (String × β)) : Prop :=
  (objKeys object).Nodup

instance {β : Type} (object : List (String × β)) : Decidable (NodupKeys object) := by
  unfold NodupKeys
  infer_instance

/-! ## Data model -/

/-- One record of `this.transactions`. -/
structure Transaction where
  id : String
  title : String
  amount : JSNumber
  type : String
  category : String
  date : String
deriving DecidableEq

/-- The state owned by the application object: `this.transactions` and `this.budgets`. -/
structure Store where
  transactions : List Transaction
  budgets : List (String × JSNumber)
deriving DecidableEq

/-- The state set up by the constructor. -/
def emptyStore : Store := ⟨[], []⟩

/-! ## Summary -/

/-- The object returned by `calculateSummary`. -/
structure Summary where
  totalIncome : JSNumber
  totalExpenses : JSNumber
  balance : JSNumber
deriving DecidableEq

/-- One iteration of the `forEach` of `calculateSummary`, on the pair
`(totalIncome, totalExpenses)`. -/
def summaryStep (acc : JSNumber × JSNumber) (transaction : Transaction) :
    JSNumber × JSNumber :=
  if transaction.type = "income" then
    (acc.1.add transaction.amount, acc.2)
  else
    (acc.1, acc.2.add transaction.amount)

/-- `calculateSummary()` on the ledger `transactions`. -/
def calculateSummary (transactions : List Transaction) : Summary :=
  let totals := transactions.foldl summaryStep (JSNumber.zero, JSNumber.zero)
  { totalIncome := totals.1
    totalExpenses := totals.2
    balance := totals.1.sub totals.2 }

/-- The sum of the amounts of a list of transactions, added up in list order from `0`. -/
def sumAmounts (transactions : List Transaction) : JSNumber :=
  transactions.foldl (fun sum t => sum.add t.amount) JSNumber.zero

/-- Every transaction of the ledger has one of the two types of the data model. -/
def WellTyped (transactions : List Transaction) : Prop :=
  ∀ t ∈ transactions, t.type = "income" ∨ t.type = "expense"

instance (transactions : List Transaction) : Decidable (WellTyped transactions) := by
  unfold WellTyped
  infer_instance

/-! ## Adding, deleting and resetting -/

/-- The fields of the transaction form read by `addTransaction`: the raw values of `title`,
`type`, `category` and `date`, and `parseFloat` of the value of `amount`. -/
structure TransactionForm where
  title : String
  amount : JSNumber
  type : String
  category : String
  date : String
deriving DecidableEq

/-- `addTransaction()`, with the form fields and the reading of `Date.now()` as arguments.
Returns the store afterwards and the text of the `alert`, if one was shown. -/
def addTransaction (form : TransactionForm) (now : Nat) (s : Store) : Store × Option String :=
  let title := trim form.title
  let amount := form.amount
  let date := form.date
  if title = "" ∨ amount.falsy = true ∨ date = "" ∨ amount.le JSNumber.zero = true then
    (s, some "Please fill all fields with valid values")
  else
    let transaction : Transaction :=
      { id := toString now
        title := title
        amount := amount
        type := form.type
        category := form.category
        date := date }
    ({ s with transactions := transaction :: s.transactions }, none)

/-- `deleteTransaction(id)`, with the answer of `confirm` as argument. -/
def deleteTransaction (confirmed : Bool) (id : String) (s : Store) : Store :=
  if confirmed then
    { s with transactions := s.transactions.filter (fun t => decide (t.id ≠ id)) }
  else
    s

/-- `resetData()`, with the answer of `confirm` as argument. -/
def resetData (confirmed : Bool) (s : Store) : Store :=
  if confirmed then { transactions := [], budgets := [] } else s

/-- `setBudget()`, with the value of `budget-category` and `parseFloat` of the value of
`budget-amount` as arguments.  Returns the store afterwards and the text of the `alert`, if
one was shown. -/
def setBudget (category : String) (amount : JSNumber) (s : Store) : Store × Option String :=
  if amount.falsy = true ∨ amount.le JSNumber.zero = true then
    (s, some "Please enter a valid budget amount")
  else
    ({ s with budgets := objAssign s.budgets category amount }, none)

/-- One operation on the store together with what it reads from its environment. -/
inductive Op where
  | add (form : TransactionForm) (now : Nat)
  | delete (confirmed : Bool) (id : String)
  | budget (category : String) (amount : JSNumber)
  | reset (confirmed : Bool)

/-- The store after one operation. -/
def step (s : Store) : Op → Store
  | .add form now => (addTransaction form now s).1
  | .delete confirmed id => deleteTransaction confirmed id s
  | .budget category amount => (setBudget category amount s).1
  | .reset confirmed => resetData confirmed s

/-- The store after a sequence of operations, the first of the list first. -/
def run (s : Store) (ops : List Op) : Store :=
  ops.foldl step s

/-- The form passes the validation of `addTransaction`. -/
def accepted (form : TransactionForm) : Bool :=
  !(decide (trim form.title = "") || form.amount.falsy || decide (form.date = "")
    || form.amount.le JSNumber.zero)

/-- The clock readings used by the additions of a sequence of operations that pass the
validation, in order. -/
def addClocks : List Op → List Nat
  | [] => []
  | .add form now :: ops => if accepted form then now :: addClocks ops else addClocks ops
  | _ :: ops => addClocks ops

/-- Every amount of the ledger and every limit of the budget map is a positive number. -/
def AmountsPositive (s : Store) : Prop :=
  (∀ t ∈ s.transactions, t.amount.Positive) ∧ (∀ e ∈ s.budgets, e.2.Positive)

instance (s : Store) : Decidable (AmountsPositive s) := by
  unfold AmountsPositive
  infer_instance

/-- A date in the format of the data model, `yyyy-mm-dd` with a month from 01 to 12 and a
day from 01 to 31.  It words what a parseable date is; `addTransaction` contains no such
test. -/
def isISODate (date : String) : Bool :=
  match date.data with
  | [y1, y2, y3, y4, d1, m1, m2, d2, a1, a2] =>
    [y1, y2, y3, y4, m1, m2, a1, a2].all Char.isDigit && d1 == '-' && d2 == '-'
      && decide (1 ≤ (m1.toNat - 48) * 10 + (m2.toNat - 48))
      && decide ((m1.toNat - 48) * 10 + (m2.toNat - 48) ≤ 12)
      && decide (1 ≤ (a1.toNat - 48) * 10 + (a2.toNat - 48))
      && decide ((a1.toNat - 48) * 10 + (a2.toNat - 48) ≤ 31)
  | _ => false

/-! ## Filtering -/

/-- The values of the four filter controls read by `getFilteredTransactions`. -/
structure FilterFields where
  month : String
  category : String
  type : String
  searchText : String
deriving DecidableEq

/-- The callback passed to `filter` in `getFilteredTransactions`; `searchValue` is the
lower-cased search text. -/
def filterCallback (toLowerCase : String → String)
    (monthFilter categoryFilter typeFilter searchValue : String)
    (transaction : Transaction) : Bool :=
  if monthFilter ≠ "all" ∧ substring07 transaction.date ≠ monthFilter then
    false
  else if categoryFilter ≠ "all" ∧ transaction.category ≠ categoryFilter then
    false
  else if typeFilter ≠ "all" ∧ transaction.type ≠ typeFilter then
    false
  else if searchValue ≠ "" ∧ includes (toLowerCase transaction.title) searchValue = false then
    false
  else
    true

/-- `getFilteredTransactions()`, with the values of the filter controls as argument. -/
def getFilteredTransactions (toLowerCase : String → String) (fields : FilterFields)
    (transactions : List Transaction) : List Transaction :=
  let monthFilter := fields.month
  let categoryFilter := fields.category
  let typeFilter := fields.type
  let searchValue := toLowerCase fields.searchText
  transactions.filter
    (filterCallback toLowerCase monthFilter categoryFilter typeFilter searchValue)

/-- The filter criteria as the specification words them: the four conditions a transaction
has to meet. -/
def Passes (toLowerCase : String → String) (criteria : FilterFields)
    (t : Transaction) : Prop :=
  (criteria.month = "all" ∨ criteria.month = substring07 t.date) ∧
  (criteria.category = "all" ∨ criteria.category = t.category) ∧
  (criteria.type = "all" ∨ criteria.type = t.type) ∧
  (criteria.searchText = "" ∨
    (toLowerCase criteria.searchText).data <:+: (toLowerCase t.title).data)

instance (toLowerCase : String → String) (criteria : FilterFields) :
    DecidablePred (Passes toLowerCase criteria) := fun t => by
  unfold Passes
  infer_instance

/-! ## Budgets -/

/-- `calculateCategorySpent(category)` on the ledger `transactions`. -/
def calculateCategorySpent (transactions : List Transaction) (category : String) :
    JSNumber :=
  (transactions.filter
      (fun t => decide (t.type = "expense") && decide (t.category = category))).foldl
    (fun sum t => sum.add t.amount) JSNumber.zero

/-- One entry of `alerts` in `checkBudgetAlerts`: the category and the amount that the
message template prints after it, `spent - limit`. -/
structure BudgetAlert where
  category : String
  overage : JSNumber
deriving DecidableEq

/-- The array `alerts` built by `checkBudgetAlerts()`. -/
def checkBudgetAlerts (budgets : List (String × JSNumber))
    (transactions : List Transaction) : List BudgetAlert :=
  budgets.foldl
    (fun alerts entry =>
      let spent := calculateCategorySpent transactions entry.1
      if spent.gt entry.2 = true then
        alerts ++ [{ category := entry.1, overage := spent.sub entry.2 }]
      else
        alerts)
    []

/-! ## Charts -/

/-- A value stored in `categoryExpenses`: a number, or the string that `+=` produces from
an inherited property. -/
inductive JSValue where
  | number (n : JSNumber)
  | string (s : String)
deriving DecidableEq

/-- JavaScript `!v` for a stored value: a string is falsy exactly when it is empty. -/
def JSValue.falsy : JSValue → Bool
  | .number n => n.falsy
  | .string s => decide (s = "")

/-- JavaScript `v + amount` for a stored value and a number: addition of numbers,
concatenation for a string. -/
def JSValue.plus (numberToString : JSNumber → String) : JSValue → JSNumber → JSValue
  | .number n, amount => .number (n.add amount)
  | .string s, amount => .string (s ++ numberToString amount)

/-- The number held by an entry of `categoryExpenses`; `0` for a missing entry or a string. -/
def entryNumber : Option JSValue → JSNumber
  | some (.number n) => n
  | _ => JSNumber.zero

/-- One iteration of the `forEach` that fills `categoryExpenses` in `renderPieChart`.
`numberToString` is the conversion of a number to a string and `inheritedToString key` the
conversion to a string of the property `key` of `Object.prototype`.  A key without own
property reads as the inherited property if it is in `protoKeys` (truthy, and turned into a
string by `+`), as `undefined` otherwise. -/
def pieStep (numberToString : JSNumber → String) (inheritedToString : String → String)
    (categoryExpenses : List (String × JSValue)) (t : Transaction) :
    List (String × JSValue) :=
  let created :=
    match objGet categoryExpenses t.category with
    | some v =>
      if v.falsy = true then objAssign categoryExpenses t.category (.number JSNumber.zero)
      else categoryExpenses
    | none =>
      if t.category ∈ protoKeys then categoryExpenses
      else objAssign categoryExpenses t.category (.number JSNumber.zero)
  match objGet created t.category with
  | some v => objAssign created t.category (v.plus numberToString t.amount)
  | none =>
    if t.category ∈ protoKeys then
      objAssign created t.category
        (.string (inheritedToString t.category ++ numberToString t.amount))
    else
      objAssign created t.category (.number JSNumber.nan)

/-- The dictionary `categoryExpenses` computed by `renderPieChart()`. -/
def categoryExpenses (numberToString : JSNumber → String)
    (inheritedToString : String → String) (transactions : List Transaction) :
    List (String × JSValue) :=
  (transactions.filter (fun t => decide (t.type = "expense"))).foldl
    (pieStep numberToString inheritedToString) []

/-- A value of `monthlyData` in `renderBarChart`. -/
structure Bucket where
  income : JSNumber
  expense : JSNumber
deriving DecidableEq

/-- One iteration of the `forEach` that fills `monthlyData` in `renderBarChart`.  A month
without own bucket reads as the inherited property if it is in `protoKeys`: it is truthy, so
no bucket is created, and the amount is written to a property of that inherited object, which
leaves `monthlyData` as it is.  `none` stands for the `TypeError` of reading a property of
`undefined`. -/
def barStep (monthlyData : List (String × Bucket)) (t : Transaction) :
    Option (List (String × Bucket)) :=
  let month := substring07 t.date
  let created :=
    match objGet monthlyData month with
    | some _ => monthlyData
    | none =>
      if month ∈ protoKeys then monthlyData
      else objSet monthlyData month { income := JSNumber.zero, expense := JSNumber.zero }
  match objGet created month with
  | some bucket =>
    if t.type = "income" then
      some (objSet created month { bucket with income := bucket.income.add t.amount })
    else
      some (objSet created month { bucket with expense := bucket.expense.add t.amount })
  | none =>
    if month ∈ protoKeys then some created else none

/-- The effect of one transaction on the bucket of its month in `renderBarChart`: the amount
goes to `income` for an income and to `expense` otherwise. -/
def bucketStep (bucket : Bucket) (t : Transaction) : Bucket :=
  if t.type = "income" then
    { bucket with income := bucket.income.add t.amount }
  else
    { bucket with expense := bucket.expense.add t.amount }

/-- The `forEach` of `renderBarChart` from a given `monthlyData`. -/
def groupByMonth : List Transaction → List (String × Bucket) →
    Option (List (String × Bucket))
  | [], monthlyData => some monthlyData
  | t :: rest, monthlyData =>
    match barStep monthlyData t with
    | none => none
    | some next => groupByMonth rest next

/-- The expression `months.map(month => monthlyData[month].field)` for months that are own
keys of `monthlyData`, as the elements of `Object.keys(monthlyData)` are; `none` marks a month
without own bucket. -/
def readBuckets (monthlyData : List (String × Bucket)) (field : Bucket → JSNumber) :
    List String → Option (List JSNumber)
  | [] => some []
  | month :: rest =>
    match objGet monthlyData month, readBuckets monthlyData field rest with
    | some bucket, some values => some (field bucket :: values)
    | _, _ => none

/-- The three arrays that `renderBarChart` hands to the chart. -/
structure BarData where
  months : List String
  incomeData : List JSNumber
  expenseData : List JSNumber
deriving DecidableEq

/-- The monthly series computed by `renderBarChart()`. -/
def monthlySeries (transactions : List Transaction) : Option BarData :=
  match groupByMonth transactions [] with
  | none => none
  | some monthlyData =>
    let months := sort (objKeys monthlyData)
    match readBuckets monthlyData Bucket.income months,
        readBuckets monthlyData Bucket.expense months with
    | some incomeData, some expenseData =>
      some { months := months, incomeData := incomeData, expenseData := expenseData }
    | _, _ => none

/-! ## Scenario data -/

/-- The ledger of the scenarios: a salary and a rent. -/
def sampleLedger : List Transaction :=
  [ { id := "2", title := "Salary", amount := .num 1000, type := "income",
      category := "Work", date := "2024-01-05" },
    { id := "1", title := "Rent", amount := .num 500, type := "expense",
      category := "Housing", date := "2024-01-01" } ]

/-! ## Theorems -/

/-! ### Scenarios -/

/-- The summary of the scenario ledger: income 1000, expenses 500, balance 500. -/
theorem scenario_summary :
    calculateSummary sampleLedger = ⟨.num 1000, .num 500, .num 500⟩ := by
  simp [calculateSummary, sampleLedger, summaryStep, JSNumber.add, JSNumber.sub, JSNumber.zero]
  norm_num

/-- The filter for the expenses of January 2024 keeps only the rent. -/
theorem scenario_filter :
    getFilteredTransactions asciiLower ⟨"2024-01", "all", "expense", ""⟩ sampleLedger =
      [⟨"1", "Rent", .num 500, "expense", "Housing", "2024-01-01"⟩] := by
  decide

/-- A limit of 400 on `Housing` is exceeded by 100. -/
theorem scenario_budget :
    calculateCategorySpent sampleLedger "Housing" = .num 500 ∧
    checkBudgetAlerts [("Housing", .num 400)] sampleLedger = [⟨"Housing", .num 100⟩] := by
  constructor
  · simp [calculateCategorySpent, sampleLedger, JSNumber.add, JSNumber.zero]
  · simp [checkBudgetAlerts, calculateCategorySpent, sampleLedger, JSNumber.gt, JSNumber.add,
      JSNumber.sub, JSNumber.zero]
    norm_num

/-- The charts of the scenario ledger: one category and one month. -/
theorem scenario_charts :
    (∀ numberToString inheritedToString,
      categoryExpenses numberToString inheritedToString sampleLedger =
        [("Housing", .number (.num 500))]) ∧
    monthlySeries sampleLedger = some ⟨["2024-01"], [.num 1000], [.num 500]⟩ := by
  constructor
  · intro numberToString inheritedToString
    simp [categoryExpenses, sampleLedger, pieStep, objGet, objSet, objAssign, protoKeys,
      JSValue.plus, JSNumber.add, JSNumber.zero]
  · simp [monthlySeries, sampleLedger, groupByMonth, barStep, substring07, objGet, objSet,
      protoKeys, JSNumber.add, JSNumber.zero, sort, objKeys, readBuckets]

/-- The empty ledger with the empty budget map: zero summary, no category, no month, no
alert. -/
theorem scenario_empty :
    calculateSummary [] = ⟨.num 0, .num 0, .num 0⟩ ∧
    (∀ numberToString inheritedToString,
      categoryExpenses numberToString inheritedToString [] = []) ∧
    monthlySeries [] = some ⟨[], [], []⟩ ∧
    checkBudgetAlerts [] [] = [] := by
  refine ⟨?_, fun _ _ => rfl, rfl, rfl⟩
  simp [calculateSummary, JSNumber.zero, JSNumber.sub]

/-! ### Summary -/

/-- The loop of `calculateSummary` adds the income amounts to the first total and all other
amounts to the second one, each in ledger order. -/
theorem foldl_summaryStep (l : List Transaction) (acc : JSNumber × JSNumber) :
    l.foldl summaryStep acc =
      ((l.filter (fun t => decide (t.type = "income"))).foldl
          (fun sum t => sum.add t.amount) acc.1,
       (l.filter (fun t => !decide (t.type = "income"))).foldl
          (fun sum t => sum.add t.amount) acc.2) := by
  induction l generalizing acc with
  | nil => rfl
  | cons t l ih =>
    by_cases h : t.type = "income"
    · simp [List.foldl_cons, summaryStep, h, ih]
    · simp [List.foldl_cons, summaryStep, h, ih]

/-- In a well-typed ledger the transactions that are not incomes are the expenses. -/
theorem filter_not_income_eq_expense (l : List Transaction) (h : WellTyped l) :
    l.filter (fun t => !decide (t.type = "income")) =
      l.filter (fun t => decide (t.type = "expense")) := by
  apply List.filter_congr
  intro t ht
  rcases h t ht with h1 | h1 <;> simp [h1]

/-- C1: `calculateSummary` returns as `totalIncome` the sum of the amounts of the income
transactions, as `totalExpenses` the sum of the amounts of the expense transactions and as
`balance` their difference, on every ledger whose transactions are incomes or expenses; on
the empty ledger the three values are zero. -/
theorem calculateSummary_spec (transactions : List Transaction)
    (h : WellTyped transactions) :
    (calculateSummary transactions).totalIncome =
        sumAmounts (transactions.filter (fun t => decide (t.type = "income"))) ∧
    (calculateSummary transactions).totalExpenses =
        sumAmounts (transactions.filter (fun t => decide (t.type = "expense"))) ∧
    (calculateSummary transactions).balance =
        ((calculateSummary transactions).totalIncome).sub
          (calculateSummary transactions).totalExpenses ∧
    calculateSummary [] = ⟨.num 0, .num 0, .num 0⟩ := by
  refine ⟨?_, ?_, rfl, ?_⟩
  · simp [calculateSummary, sumAmounts, foldl_summaryStep]
  · simp [calculateSummary, sumAmounts, foldl_summaryStep,
      filter_not_income_eq_expense transactions h]
  · simp [calculateSummary, JSNumber.zero, JSNumber.sub]

/-- The witness of the scenario of C1. -/
theorem calculateSummary_spec_witness :
    WellTyped sampleLedger ∧
    (calculateSummary sampleLedger).totalIncome =
        sumAmounts (sampleLedger.filter (fun t => decide (t.type = "income"))) ∧
    (calculateSummary sampleLedger).totalExpenses =
        sumAmounts (sampleLedger.filter (fun t => decide (t.type = "expense"))) ∧
    (calculateSummary sampleLedger).balance =
        ((calculateSummary sampleLedger).totalIncome).sub
          (calculateSummary sampleLedger).totalExpenses ∧
    calculateSummary [] = ⟨.num 0, .num 0, .num 0⟩ :=
  ⟨by decide,
   calculateSummary_spec sampleLedger (by decide)⟩

/-! ### Filtering -/

/-- The search of `includes` finds exactly the contiguous sublists. -/
theorem includes_iff (hay needle : String) :
    includes hay needle = true ↔ needle.data <:+: hay.data := by
  unfold includes
  rw [List.any_eq_true, List.infix_iff_prefix_suffix]
  constructor
  · rintro ⟨suffix, hmem, hpre⟩
    exact ⟨suffix, List.isPrefixOf_iff_prefix.mp hpre, (List.mem_tails _ _).mp hmem⟩
  · rintro ⟨suffix, hpre, hsuf⟩
    exact ⟨suffix, (List.mem_tails _ _).mpr hsuf, List.isPrefixOf_iff_prefix.mpr hpre⟩

/-- The callback of `getFilteredTransactions` accepts a transaction exactly when the four
conditions of the specification hold. -/
theorem filterCallback_iff (toLowerCase : String → String) (h : toLowerCase "" = "")
    (criteria : FilterFields) (t : Transaction) :
    filterCallback toLowerCase criteria.month criteria.category criteria.type
        (toLowerCase criteria.searchText) t = true ↔ Passes toLowerCase criteria t := by
  have hsearch : (toLowerCase criteria.searchText ≠ "" ∧
        includes (toLowerCase t.title) (toLowerCase criteria.searchText) = false) ↔
      ¬ (criteria.searchText = "" ∨
        (toLowerCase criteria.searchText).data <:+: (toLowerCase t.title).data) := by
    rw [← includes_iff]
    constructor
    · rintro ⟨hne, hinc⟩ (hempty | hin)
      · exact hne (by rw [hempty, h])
      · rw [hin] at hinc
        exact Bool.noConfusion hinc
    · intro hnot
      push_neg at hnot
      refine ⟨?_, by simpa using hnot.2⟩
      intro hempty
      apply hnot.2
      rw [hempty, includes_iff]
      exact List.nil_infix
  unfold filterCallback Passes
  by_cases h1 : criteria.month ≠ "all" ∧ substring07 t.date ≠ criteria.month
  · rw [if_pos h1]
    simp only [Bool.false_eq_true, false_iff]
    rintro ⟨hm | hm, -⟩
    · exact h1.1 hm
    · exact h1.2 hm.symm
  rw [if_neg h1]
  by_cases h2 : criteria.category ≠ "all" ∧ t.category ≠ criteria.category
  · rw [if_pos h2]
    simp only [Bool.false_eq_true, false_iff]
    rintro ⟨-, hc | hc, -⟩
    · exact h2.1 hc
    · exact h2.2 hc.symm
  rw [if_neg h2]
  by_cases h3 : criteria.type ≠ "all" ∧ t.type ≠ criteria.type
  · rw [if_pos h3]
    simp only [Bool.false_eq_true, false_iff]
    rintro ⟨-, -, ht | ht, -⟩
    · exact h3.1 ht
    · exact h3.2 ht.symm
  rw [if_neg h3]
  have e1 : criteria.month = "all" ∨ criteria.month = substring07 t.date := by
    by_contra hc
    push_neg at hc
    exact h1 ⟨hc.1, fun e => hc.2 e.symm⟩
  have e2 : criteria.category = "all" ∨ criteria.category = t.category := by
    by_contra hc
    push_neg at hc
    exact h2 ⟨hc.1, fun e => hc.2 e.symm⟩
  have e3 : criteria.type = "all" ∨ criteria.type = t.type := by
    by_contra hc
    push_neg at hc
    exact h3 ⟨hc.1, fun e => hc.2 e.symm⟩
  by_cases h4 : toLowerCase criteria.searchText ≠ "" ∧
      includes (toLowerCase t.title) (toLowerCase criteria.searchText) = false
  · rw [if_pos h4]
    simp only [Bool.false_eq_true, false_iff]
    rintro ⟨-, -, -, hs⟩
    exact hsearch.mp h4 hs
  · rw [if_neg h4]
    simp only [true_iff]
    exact ⟨e1, e2, e3, not_not.mp (fun hn => h4 (hsearch.mpr hn))⟩

/-- C2: `getFilteredTransactions` returns the transactions of the ledger that meet the four
criteria (month, category, type, search text), in ledger order, each as often as it occurs
in the ledger: the result is the ledger filtered by the four conditions. -/
theorem getFilteredTransactions_spec (toLowerCase : String → String)
    (h : toLowerCase "" = "") (criteria : FilterFields) (transactions : List Transaction) :
    getFilteredTransactions toLowerCase criteria transactions =
        transactions.filter (fun t => decide (Passes toLowerCase criteria t)) ∧
    (getFilteredTransactions toLowerCase criteria transactions).Sublist transactions ∧
    (∀ t, t ∈ getFilteredTransactions toLowerCase criteria transactions ↔
      t ∈ transactions ∧ Passes toLowerCase criteria t) ∧
    (∀ t, Passes toLowerCase criteria t →
      (getFilteredTransactions toLowerCase criteria transactions).count t =
        transactions.count t) := by
  have heq : getFilteredTransactions toLowerCase criteria transactions =
      transactions.filter (fun t => decide (Passes toLowerCase criteria t)) := by
    unfold getFilteredTransactions
    apply List.filter_congr
    intro t _
    by_cases hp : Passes toLowerCase criteria t
    · simp [hp, (filterCallback_iff toLowerCase h criteria t).mpr hp]
    · have : filterCallback toLowerCase criteria.month criteria.category criteria.type
          (toLowerCase criteria.searchText) t = false := by
        cases hc : filterCallback toLowerCase criteria.month criteria.category criteria.type
          (toLowerCase criteria.searchText) t
        · rfl
        · exact absurd ((filterCallback_iff toLowerCase h criteria t).mp hc) hp
      simp [hp, this]
  refine ⟨heq, ?_, ?_, ?_⟩
  · rw [heq]
    exact List.filter_sublist _
  · intro t
    rw [heq]
    simp [List.mem_filter]
  · intro t ht
    rw [heq, List.count_filter]
    simpa using ht

/-- The witness of C2: the scenario filter on the scenario ledger with ASCII lower-casing. -/
theorem getFilteredTransactions_spec_witness :
    asciiLower "" = "" ∧
    getFilteredTransactions asciiLower ⟨"2024-01", "all", "expense", ""⟩ sampleLedger =
      sampleLedger.filter
        (fun t => decide (Passes asciiLower ⟨"2024-01", "all", "expense", ""⟩ t)) :=
  ⟨by decide,
   (getFilteredTransactions_spec asciiLower (by decide) ⟨"2024-01", "all", "expense", ""⟩
      sampleLedger).1⟩

/-! ### Dictionaries -/

theorem objGet_objSet_same {β : Type} (o : List (String × β)) (k : String) (v : β) :
    objGet (objSet o k v) k = some v := by
  induction o with
  | nil => simp [objSet, objGet]
  | cons e o ih =>
    obtain ⟨k', w⟩ := e
    by_cases hk : k' = k
    · simp [objSet, objGet, hk]
    · simp [objSet, objGet, hk, ih]

theorem objGet_objSet_other {β : Type} (o : List (String × β)) (k k' : String) (v : β)
    (hne : k' ≠ k) : objGet (objSet o k v) k' = objGet o k' := by
  induction o with
  | nil => simp [objSet, objGet, Ne.symm hne]
  | cons e o ih =>
    obtain ⟨k₀, w⟩ := e
    by_cases hk : k₀ = k
    · subst hk
      simp [objSet, objGet, Ne.symm hne]
    · by_cases hk' : k₀ = k'
      · subst hk'
        simp [objSet, objGet, hk]
      · simp [objSet, objGet, hk, hk', ih]

theorem mem_objSet {β : Type} (o : List (String × β)) (k : String) (v : β)
    (e : String × β) (he : e ∈ objSet o k v) : e ∈ o ∨ e = (k, v) := by
  induction o with
  | nil =>
    simp only [objSet, List.mem_singleton] at he
    exact Or.inr he
  | cons e₀ o ih =>
    obtain ⟨k₀, w⟩ := e₀
    by_cases hk : k₀ = k
    · subst hk
      simp only [objSet, if_true, List.mem_cons] at he
      rcases he with he | he
      · exact Or.inr he
      · exact Or.inl (List.mem_cons_of_mem _ he)
    · simp only [objSet, if_neg hk, List.mem_cons] at he
      rcases he with he | he
      · exact Or.inl (he ▸ List.mem_cons_self _ _)
      · rcases ih he with h1 | h1
        · exact Or.inl (List.mem_cons_of_mem _ h1)
        · exact Or.inr h1

theorem mem_objAssign {β : Type} (o : List (String × β)) (k : String) (v : β)
    (e : String × β) (he : e ∈ objAssign o k v) : e ∈ o ∨ e = (k, v) := by
  unfold objAssign at he
  split at he
  · exact Or.inl he
  · exact mem_objSet o k v e he

theorem objGet_objAssign_other {β : Type} (o : List (String × β)) (k k' : String) (v : β)
    (hne : k' ≠ k) : objGet (objAssign o k v) k' = objGet o k' := by
  unfold objAssign
  split
  · rfl
  · exact objGet_objSet_other o k k' v hne

theorem objAssign_eq_objSet {β : Type} (o : List (String × β)) (k : String) (v : β)
    (hk : k ∉ protoKeys) : objAssign o k v = objSet o k v := by
  unfold objAssign
  rw [if_neg]
  rintro rfl
  exact hk (by decide)

theorem mem_objKeys_iff {β : Type} (o : List (String × β)) (k : String) :
    k ∈ objKeys o ↔ ∃ v, objGet o k = some v := by
  induction o with
  | nil => simp [objKeys, objGet]
  | cons e o ih =>
    obtain ⟨k₀, w⟩ := e
    by_cases hk : k₀ = k
    · simp [objKeys, objGet, hk]
    · have ih' : k ∈ List.map Prod.fst o ↔ ∃ v, objGet o k = some v := ih
      simp [objKeys, objGet, hk, Ne.symm hk, ih']

theorem mem_objKeys_objSet {β : Type} (o : List (String × β)) (k k' : String) (v : β) :
    k' ∈ objKeys (objSet o k v) ↔ k' ∈ objKeys o ∨ k' = k := by
  rw [mem_objKeys_iff, mem_objKeys_iff]
  by_cases hk : k' = k
  · subst hk
    simp [objGet_objSet_same]
  · simp [objGet_objSet_other o k k' v hk, hk]

theorem nodupKeys_objSet {β : Type} (o : List (String × β)) (k : String) (v : β)
    (h : NodupKeys o) : NodupKeys (objSet o k v) := by
  induction o with
  | nil => simp [NodupKeys, objKeys, objSet]
  | cons e o ih =>
    obtain ⟨k₀, w⟩ := e
    have h' : k₀ ∉ objKeys o ∧ NodupKeys o := by
      simpa [NodupKeys, objKeys] using h
    by_cases hk : k₀ = k
    · simpa [objSet, hk, NodupKeys, objKeys] using h
    · have hnot : k₀ ∉ objKeys (objSet o k v) := by
        rw [mem_objKeys_objSet]
        rintro (h1 | h1)
        · exact h'.1 h1
        · exact hk h1
      have hrec : NodupKeys (objSet o k v) := ih h'.2
      simp only [objSet, if_neg hk, NodupKeys, objKeys, List.map_cons, List.nodup_cons]
      exact ⟨hnot, hrec⟩

theorem objGet_eq_some_iff_mem {β : Type} (o : List (String × β)) (h : NodupKeys o)
    (k : String) (v : β) : objGet o k = some v ↔ (k, v) ∈ o := by
  induction o with
  | nil => simp [objGet]
  | cons e o ih =>
    obtain ⟨k₀, w⟩ := e
    have h' : k₀ ∉ objKeys o ∧ NodupKeys o := by
      simpa [NodupKeys, objKeys] using h
    by_cases hk : k₀ = k
    · subst hk
      have hnot : (k₀, v) ∉ o := fun hm =>
        h'.1 (List.mem_map.mpr ⟨(k₀, v), hm, rfl⟩)
      simp [objGet, hnot, eq_comm]
    · simp [objGet, hk, Ne.symm hk, ih h'.2]

/-! ### Budget alerts -/

/-- The alert that `checkBudgetAlerts` pushes for one entry of the budget map, if any. -/
theorem checkBudgetAlerts_foldl (transactions : List Transaction)
    (budgets : List (String × JSNumber)) (alerts : List BudgetAlert) :
    budgets.foldl
      (fun alerts entry =>
        let spent := calculateCategorySpent transactions entry.1
        if spent.gt entry.2 = true then
          alerts ++ [{ category := entry.1, overage := spent.sub entry.2 }]
        else
          alerts)
      alerts =
    alerts ++ (budgets.filter
        (fun entry => (calculateCategorySpent transactions entry.1).gt entry.2)).map
      (fun entry =>
        { category := entry.1
          overage := (calculateCategorySpent transactions entry.1).sub entry.2 }) := by
  induction budgets generalizing alerts with
  | nil => simp
  | cons e budgets ih =>
    by_cases hgt : (calculateCategorySpent transactions e.1).gt e.2 = true
    · simp [List.foldl_cons, hgt, ih]
    · simp [List.foldl_cons, hgt, ih]

theorem mem_checkBudgetAlerts (budgets : List (String × JSNumber))
    (transactions : List Transaction) (a : BudgetAlert) :
    a ∈ checkBudgetAlerts budgets transactions ↔
      ∃ limit, (a.category, limit) ∈ budgets ∧
        (calculateCategorySpent transactions a.category).gt limit = true ∧
        a.overage = (calculateCategorySpent transactions a.category).sub limit := by
  unfold checkBudgetAlerts
  rw [checkBudgetAlerts_foldl]
  simp only [List.nil_append, List.mem_map, List.mem_filter]
  constructor
  · rintro ⟨⟨c, l⟩, ⟨hmem, hgt⟩, rfl⟩
    exact ⟨l, hmem, hgt, rfl⟩
  · rintro ⟨l, hmem, hgt, hov⟩
    refine ⟨(a.category, l), ⟨hmem, hgt⟩, ?_⟩
    cases a
    simp_all

/-- C3: `checkBudgetAlerts` produces an alert for a budgeted category exactly when the amount
spent in that category, as `calculateCategorySpent` computes it (the sum of the amounts of
its expense transactions), is greater than its limit; every alert is for a budgeted category
and reports the amount spent minus the limit of its category. -/
theorem checkBudgetAlerts_spec (budgets : List (String × JSNumber))
    (transactions : List Transaction) (hkeys : NodupKeys budgets) :
    (∀ category limit, objGet budgets category = some limit →
      ((∃ a ∈ checkBudgetAlerts budgets transactions, a.category = category) ↔
        (calculateCategorySpent transactions category).gt limit = true) ∧
      (∀ a ∈ checkBudgetAlerts budgets transactions, a.category = category →
        a.overage = (calculateCategorySpent transactions category).sub limit)) ∧
    (∀ a ∈ checkBudgetAlerts budgets transactions,
      ∃ limit, objGet budgets a.category = some limit) ∧
    (∀ category, calculateCategorySpent transactions category =
      sumAmounts (transactions.filter
        (fun t => decide (t.type = "expense") && decide (t.category = category)))) := by
  refine ⟨?_, ?_, fun _ => rfl⟩
  · intro category limit hget
    have hmem := (objGet_eq_some_iff_mem budgets hkeys category limit).mp hget
    constructor
    · constructor
      · rintro ⟨a, ha, rfl⟩
        obtain ⟨l, hl, hgt, -⟩ := (mem_checkBudgetAlerts budgets transactions a).mp ha
        have := (objGet_eq_some_iff_mem budgets hkeys a.category l).mpr hl
        rw [hget] at this
        cases this
        exact hgt
      · intro hgt
        exact ⟨⟨category, (calculateCategorySpent transactions category).sub limit⟩,
          (mem_checkBudgetAlerts budgets transactions _).mpr ⟨limit, hmem, hgt, rfl⟩, rfl⟩
    · rintro a ha rfl
      obtain ⟨l, hl, -, hov⟩ := (mem_checkBudgetAlerts budgets transactions a).mp ha
      have := (objGet_eq_some_iff_mem budgets hkeys a.category l).mpr hl
      rw [hget] at this
      cases this
      exact hov
  · intro a ha
    obtain ⟨l, hl, -, -⟩ := (mem_checkBudgetAlerts budgets transactions a).mp ha
    exact ⟨l, (objGet_eq_some_iff_mem budgets hkeys a.category l).mpr hl⟩

/-- The witness of C3: the budget scenario, a limit of 400 on `Housing`. -/
theorem checkBudgetAlerts_spec_witness :
    NodupKeys [("Housing", JSNumber.num 400)] ∧
    ((∃ a ∈ checkBudgetAlerts [("Housing", .num 400)] sampleLedger, a.category = "Housing") ↔
      (calculateCategorySpent sampleLedger "Housing").gt (.num 400) = true) :=
  ⟨by decide,
   ((checkBudgetAlerts_spec [("Housing", .num 400)] sampleLedger
      (by decide)).1 "Housing" (.num 400) (by decide)).1⟩

/-! ### Adding a transaction -/

/-- The two numeric tests of the validation reject exactly what is not a positive number. -/
theorem not_positive_iff (a : JSNumber) :
    ¬ a.Positive ↔ (a.falsy = true ∨ a.le JSNumber.zero = true) := by
  cases a with
  | nan => simp [JSNumber.Positive, JSNumber.falsy]
  | num q =>
    simp only [JSNumber.Positive, JSNumber.falsy, JSNumber.le, JSNumber.zero, not_lt,
      decide_eq_true_eq]
    constructor
    · intro h
      exact Or.inr h
    · rintro (h | h)
      · exact le_of_eq h
      · exact h

/-- The validation of `addTransaction` as one condition on the form. -/
theorem accepted_iff (form : TransactionForm) :
    accepted form = true ↔
      trim form.title ≠ "" ∧ form.amount.Positive ∧ form.date ≠ "" := by
  have hp := not_positive_iff form.amount
  unfold accepted
  simp only [Bool.not_eq_true', Bool.or_eq_false_iff, decide_eq_false_iff_not]
  constructor
  · rintro ⟨⟨⟨h1, h2⟩, h3⟩, h4⟩
    refine ⟨h1, ?_, h3⟩
    by_contra hn
    rcases hp.mp hn with h | h
    · rw [h] at h2
      exact Bool.noConfusion h2
    · rw [h] at h4
      exact Bool.noConfusion h4
  · rintro ⟨h1, h2, h3⟩
    have hn : ¬ (form.amount.falsy = true ∨ form.amount.le JSNumber.zero = true) :=
      fun h => (hp.mpr h) h2
    push_neg at hn
    exact ⟨⟨⟨h1, by simpa using hn.1⟩, h3⟩, by simpa using hn.2⟩

/-- The two outcomes of `addTransaction`. -/
theorem addTransaction_eq (form : TransactionForm) (now : Nat) (s : Store) :
    addTransaction form now s =
      if accepted form = true then
        ({ s with transactions :=
            { id := toString now, title := trim form.title, amount := form.amount,
              type := form.type, category := form.category, date := form.date }
              :: s.transactions }, none)
      else
        (s, some "Please fill all fields with valid values") := by
  unfold addTransaction accepted
  by_cases h : trim form.title = "" ∨ form.amount.falsy = true ∨ form.date = "" ∨
      form.amount.le JSNumber.zero = true
  · rw [if_pos h, if_neg]
    rcases h with h | h | h | h <;> simp [h]
  · rw [if_neg h, if_pos]
    push_neg at h
    obtain ⟨h1, h2, h3, h4⟩ := h
    simp [h1, h2, h3, h4]

/-- A form with an unparseable but non-empty date is accepted: the claim C4 as stated fails
for the date `not a date`. -/
theorem addTransaction_unparseable_date_accepted :
    isISODate "not a date" = false ∧
    (addTransaction ⟨"Rent", .num 500, "expense", "Housing", "not a date"⟩ 1 emptyStore).2
      = none ∧
    (addTransaction ⟨"Rent", .num 500, "expense", "Housing", "not a date"⟩ 1
        emptyStore).1.transactions
      = [⟨"1", "Rent", .num 500, "expense", "Housing", "not a date"⟩] := by
  refine ⟨by decide, ?_, ?_⟩ <;> decide

/-- C4 (amended): if the title is empty after trimming, or the amount is not a positive number
(zero, negative or `NaN`), or the date is empty, `addTransaction` shows its alert and leaves
the store, ledger and budget map, unchanged. -/
theorem addTransaction_rejects (form : TransactionForm) (now : Nat) (s : Store)
    (h : trim form.title = "" ∨ ¬ form.amount.Positive ∨ form.date = "") :
    (addTransaction form now s).2 = some "Please fill all fields with valid values" ∧
    (addTransaction form now s).1 = s ∧
    (addTransaction form now s).1.transactions = s.transactions ∧
    (addTransaction form now s).1.budgets = s.budgets := by
  have hacc : ¬ accepted form = true := by
    rw [accepted_iff]
    rintro ⟨h1, h2, h3⟩
    rcases h with h | h | h
    · exact h1 h
    · exact h h2
    · exact h3 h
  rw [addTransaction_eq, if_neg hacc]
  exact ⟨rfl, rfl, rfl, rfl⟩

/-- The witness of C4: a title of blanks is rejected. -/
theorem addTransaction_rejects_witness :
    (trim "   " = "" ∨ ¬ (JSNumber.num 500).Positive ∨ "2024-01-01" = "") ∧
    (addTransaction ⟨"   ", .num 500, "expense", "Housing", "2024-01-01"⟩ 1
      ⟨sampleLedger, []⟩).1 = ⟨sampleLedger, []⟩ :=
  ⟨Or.inl (by decide),
   (addTransaction_rejects ⟨"   ", .num 500, "expense", "Housing", "2024-01-01"⟩ 1
      ⟨sampleLedger, []⟩ (Or.inl (by decide))).2.1⟩

/-- The claim C5 as stated fails on titles with surrounding blanks: the title ` Rent` is
stored as `Rent`, and the non-empty title of one blank is rejected. -/
theorem addTransaction_title_not_kept :
    (" Rent" ≠ "" ∧ (JSNumber.num 500).Positive ∧ "2024-01-01" ≠ "" ∧
      (addTransaction ⟨" Rent", .num 500, "expense", "Housing", "2024-01-01"⟩ 1
          emptyStore).1.transactions.map (fun t => t.title) = ["Rent"] ∧
      "Rent" ≠ " Rent") ∧
    (" " ≠ "" ∧
      (addTransaction ⟨" ", .num 500, "expense", "Housing", "2024-01-01"⟩ 1
          emptyStore).1.transactions = []) := by
  refine ⟨⟨by decide, by decide, by decide, by decide, by decide⟩, by decide, by decide⟩

/-- C5 (amended): for a form whose title is non-empty after trimming, whose amount is a
positive number and whose date is non-empty, `addTransaction` shows no alert and puts in front
of the ledger a record with the trimmed title and the given amount, type, category and date
(its id is the clock reading in decimal); the rest of the ledger is the previous ledger and
the budget map is unchanged. -/
theorem addTransaction_accepts (form : TransactionForm) (now : Nat) (s : Store)
    (htitle : trim form.title ≠ "") (hamount : form.amount.Positive)
    (hdate : form.date ≠ "") :
    (addTransaction form now s).2 = none ∧
    (addTransaction form now s).1.transactions =
      { id := toString now, title := trim form.title, amount := form.amount,
        type := form.type, category := form.category, date := form.date }
        :: s.transactions ∧
    (addTransaction form now s).1.budgets = s.budgets := by
  have hacc : accepted form = true := (accepted_iff form).mpr ⟨htitle, hamount, hdate⟩
  rw [addTransaction_eq, if_pos hacc]
  exact ⟨rfl, rfl, rfl⟩

/-- The witness of C5: a rent is added in front of the scenario ledger. -/
theorem addTransaction_accepts_witness :
    (trim " Rent " ≠ "" ∧ (JSNumber.num 500).Positive ∧ "2024-02-01" ≠ "") ∧
    (addTransaction ⟨" Rent ", .num 500, "expense", "Housing", "2024-02-01"⟩ 3
        ⟨sampleLedger, []⟩).1.transactions =
      { id := toString 3, title := trim " Rent ", amount := .num 500, type := "expense",
        category := "Housing", date := "2024-02-01" } :: sampleLedger :=
  ⟨⟨by decide, by decide, by decide⟩,
   (addTransaction_accepts ⟨" Rent ", .num 500, "expense", "Housing", "2024-02-01"⟩ 3
      ⟨sampleLedger, []⟩ (by decide) (by decide) (by decide)).2.1⟩

/-! ### Deleting -/

/-- C7: with the confirmation accepted, `deleteTransaction(id)` applied twice gives the same
ledger and budget map as applied once. -/
theorem deleteTransaction_idempotent (id : String) (s : Store) :
    deleteTransaction true id (deleteTransaction true id s) = deleteTransaction true id s ∧
    (deleteTransaction true id (deleteTransaction true id s)).transactions =
      (deleteTransaction true id s).transactions ∧
    (deleteTransaction true id (deleteTransaction true id s)).budgets =
      (deleteTransaction true id s).budgets := by
  have h : deleteTransaction true id (deleteTransaction true id s) =
      deleteTransaction true id s := by
    simp [deleteTransaction, List.filter_filter]
  exact ⟨h, by rw [h], by rw [h]⟩

/-! ### Positive amounts and limits -/

/-- The store that the operations of C8 start from in the witness. -/
theorem amountsPositive_sample :
    AmountsPositive ⟨sampleLedger, [("Housing", .num 400)]⟩ := by
  decide

/-- C8: every amount of the ledger and every limit of the budget map being a positive number
holds in the empty store and is kept by `addTransaction`, `deleteTransaction`, `setBudget`
and `resetData` on every input, accepted or rejected. -/
theorem amountsPositive_invariant :
    AmountsPositive emptyStore ∧
    ∀ (s : Store) (op : Op), AmountsPositive s → AmountsPositive (step s op) := by
  constructor
  · constructor <;> intro x hx <;> cases hx
  · intro s op hs
    obtain ⟨htx, hb⟩ := hs
    cases op with
    | add form now =>
      simp only [step]
      rw [addTransaction_eq]
      by_cases hacc : accepted form = true
      · rw [if_pos hacc]
        refine ⟨?_, hb⟩
        intro t ht
        rcases List.mem_cons.mp ht with h | h
        · rw [h]
          exact ((accepted_iff form).mp hacc).2.1
        · exact htx t h
      · rw [if_neg hacc]
        exact ⟨htx, hb⟩
    | delete confirmed id =>
      simp only [step, deleteTransaction]
      cases confirmed
      · exact ⟨htx, hb⟩
      · refine ⟨?_, hb⟩
        intro t ht
        exact htx t (List.mem_of_mem_filter ht)
    | budget category amount =>
      simp only [step, setBudget]
      by_cases hrej : amount.falsy = true ∨ amount.le JSNumber.zero = true
      · rw [if_pos hrej]
        exact ⟨htx, hb⟩
      · rw [if_neg hrej]
        refine ⟨htx, ?_⟩
        intro e he
        rcases mem_objAssign s.budgets category amount e he with h | h
        · exact hb e h
        · rw [h]
          by_contra hn
          exact hrej ((not_positive_iff amount).mp hn)
    | reset confirmed =>
      simp only [step, resetData]
      cases confirmed
      · exact ⟨htx, hb⟩
      · constructor <;> intro x hx <;> cases hx

/-- The witness of C8: a budget of zero is refused and the store stays positive. -/
theorem amountsPositive_invariant_witness :
    AmountsPositive ⟨sampleLedger, [("Housing", .num 400)]⟩ ∧
    AmountsPositive (step ⟨sampleLedger, [("Housing", .num 400)]⟩ (.budget "Work" (.num 0))) :=
  ⟨amountsPositive_sample,
   amountsPositive_invariant.2 ⟨sampleLedger, [("Housing", .num 400)]⟩
     (.budget "Work" (.num 0)) amountsPositive_sample⟩

/-! ### Identifiers -/

/-- The value of a string of decimal digits. -/
theorem digitChar_toNat (k : Nat) (hk : k < 10) : (Nat.digitChar k).toNat - 48 = k := by
  interval_cases k <;> rfl

theorem toDigitsCore_append (fuel : Nat) :
    ∀ (n : Nat) (ds : List Char),
      Nat.toDigitsCore 10 fuel n ds = Nat.toDigitsCore 10 fuel n [] ++ ds := by
  induction fuel with
  | zero => intro n ds; simp [Nat.toDigitsCore]
  | succ fuel ih =>
    intro n ds
    simp only [Nat.toDigitsCore]
    by_cases h : n / 10 = 0
    · simp [h]
    · simp only [h, if_false]
      rw [ih (n / 10) (Nat.digitChar (n % 10) :: ds), ih (n / 10) [Nat.digitChar (n % 10)]]
      simp

theorem decode_toDigitsCore (fuel : Nat) :
    ∀ n, n < fuel →
      (Nat.toDigitsCore 10 fuel n []).foldl (fun acc c => 10 * acc + (c.toNat - 48)) 0 = n := by
  induction fuel with
  | zero => intro n hn; omega
  | succ fuel ih =>
    intro n hn
    simp only [Nat.toDigitsCore]
    by_cases h : n / 10 = 0
    · simp only [h, if_true, List.foldl_cons, List.foldl_nil, Nat.mul_zero, Nat.zero_add]
      rw [digitChar_toNat _ (Nat.mod_lt _ (by decide))]
      omega
    · simp only [h, if_false]
      rw [toDigitsCore_append fuel (n / 10) [Nat.digitChar (n % 10)], List.foldl_append,
        ih (n / 10) (by omega)]
      simp only [List.foldl_cons, List.foldl_nil]
      rw [digitChar_toNat _ (Nat.mod_lt _ (by decide))]
      omega

/-- Two different clock readings have different decimal representations. -/
theorem toString_nat_injective (m n : Nat) (h : toString m = toString n) : m = n := by
  have h' : (Nat.toDigits 10 m).asString = (Nat.toDigits 10 n).asString := h
  have h'' : Nat.toDigits 10 m = Nat.toDigits 10 n := congrArg String.data h'
  have hm := decode_toDigitsCore (m + 1) m (Nat.lt_succ_self m)
  have hn := decode_toDigitsCore (n + 1) n (Nat.lt_succ_self n)
  unfold Nat.toDigits at h''
  rw [h''] at hm
  rw [← hm, hn]

/-- The ids of the ledger after one operation: a new id in front for an accepted addition,
otherwise a sublist of the ids before. -/
theorem ids_step (s : Store) (op : Op) :
    (∃ form now, op = .add form now ∧ accepted form = true ∧
      (step s op).transactions.map (fun t => t.id) =
        toString now :: s.transactions.map (fun t => t.id)) ∨
    ((∀ form now, op = .add form now → accepted form = false) ∧
      ((step s op).transactions.map (fun t => t.id)).Sublist
        (s.transactions.map (fun t => t.id))) := by
  cases op with
  | add form now =>
    by_cases hacc : accepted form = true
    · left
      refine ⟨form, now, rfl, hacc, ?_⟩
      simp [step, addTransaction_eq, hacc]
    · right
      refine ⟨?_, ?_⟩
      · intro f n hfn
        cases hfn
        simpa using hacc
      · simp [step, addTransaction_eq, hacc]
  | delete confirmed id =>
    right
    refine ⟨fun _ _ h => (by cases h), ?_⟩
    cases confirmed
    · simp [step, deleteTransaction]
    · simp only [step, deleteTransaction, if_true]
      exact (List.filter_sublist _).map _
  | budget category amount =>
    right
    refine ⟨fun _ _ h => (by cases h), ?_⟩
    simp only [step, setBudget]
    split <;> simp
  | reset confirmed =>
    right
    refine ⟨fun _ _ h => (by cases h), ?_⟩
    cases confirmed <;> simp [step, resetData]

/-- Distinct ids are kept along a run whose accepted additions read pairwise distinct clock
values, none of them already the id of a record. -/
theorem ids_nodup_run (ops : List Op) :
    ∀ s : Store, (s.transactions.map (fun t => t.id)).Nodup →
      (addClocks ops).Nodup →
      (∀ n ∈ addClocks ops, toString n ∉ s.transactions.map (fun t => t.id)) →
      ((run s ops).transactions.map (fun t => t.id)).Nodup := by
  induction ops with
  | nil => intro s hs _ _; exact hs
  | cons op ops ih =>
    intro s hs hclocks hfresh
    have hrun : run s (op :: ops) = run (step s op) ops := rfl
    rw [hrun]
    rcases ids_step s op with ⟨form, now, rfl, hacc, hids⟩ | ⟨hrej, hsub⟩
    · have hc : addClocks (Op.add form now :: ops) = now :: addClocks ops := by
        simp [addClocks, hacc]
      rw [hc] at hclocks hfresh
      have hnd := List.nodup_cons.mp hclocks
      apply ih
      · rw [hids]
        exact List.nodup_cons.mpr ⟨hfresh now (List.mem_cons_self _ _), hs⟩
      · exact hnd.2
      · intro n hn hmem
        rw [hids] at hmem
        rcases List.mem_cons.mp hmem with h | h
        · have := toString_nat_injective n now h
          exact hnd.1 (this ▸ hn)
        · exact hfresh n (List.mem_cons_of_mem _ hn) h
    · have hc : addClocks (op :: ops) = addClocks ops := by
        cases op with
        | add form now =>
          have := hrej form now rfl
          simp [addClocks, this]
        | delete confirmed id => rfl
        | budget category amount => rfl
        | reset confirmed => rfl
      rw [hc] at hclocks hfresh
      apply ih
      · exact hs.sublist hsub
      · exact hclocks
      · intro n hn hmem
        exact hfresh n hn (hsub.subset hmem)

/-- The claim C6 as stated fails when two additions read the same clock value: both records
get the id `1700000000000`. -/
theorem ids_not_distinct_same_clock :
    ¬ ((run emptyStore
        [.add ⟨"Salary", .num 1000, "income", "Work", "2024-01-05"⟩ 1700000000000,
         .add ⟨"Rent", .num 500, "expense", "Housing", "2024-01-01"⟩ 1700000000000]
        ).transactions.map (fun t => t.id)).Nodup := by
  decide

/-- C6 (amended): in every ledger reached from the empty store by a sequence of
`addTransaction`, `deleteTransaction`, `setBudget` and `resetData` operations in which the
accepted additions read pairwise distinct clock values, the ids are pairwise distinct. -/
theorem ids_nodup_of_distinct_clocks (ops : List Op) (hclocks : (addClocks ops).Nodup) :
    ((run emptyStore ops).transactions.map (fun t => t.id)).Nodup := by
  apply ids_nodup_run ops emptyStore
  · exact List.nodup_nil
  · exact hclocks
  · intro n _ hmem
    cases hmem

/-- The witness of C6: two additions at different clock readings and a deletion. -/
theorem ids_nodup_of_distinct_clocks_witness :
    (addClocks
      [.add ⟨"Salary", .num 1000, "income", "Work", "2024-01-05"⟩ 1700000000000,
       .add ⟨"Rent", .num 500, "expense", "Housing", "2024-01-01"⟩ 1700000000001,
       .delete true "1700000000000"]).Nodup ∧
    ((run emptyStore
      [.add ⟨"Salary", .num 1000, "income", "Work", "2024-01-05"⟩ 1700000000000,
       .add ⟨"Rent", .num 500, "expense", "Housing", "2024-01-01"⟩ 1700000000001,
       .delete true "1700000000000"]).transactions.map (fun t => t.id)).Nodup :=
  ⟨by decide, ids_nodup_of_distinct_clocks _ (by decide)⟩

/-! ### Expenses by category -/

theorem positive_not_falsy (a : JSNumber) (h : a.Positive) : a.falsy = false := by
  cases a with
  | nan => exact absurd h (by simp [JSNumber.Positive])
  | num q =>
    simp only [JSNumber.Positive] at h
    simp [JSNumber.falsy, ne_of_gt h]

theorem positive_add (a b : JSNumber) (ha : a = JSNumber.zero ∨ a.Positive)
    (hb : b.Positive) : (a.add b).Positive := by
  cases b with
  | nan => exact absurd hb (by simp [JSNumber.Positive])
  | num q =>
    cases a with
    | nan =>
      rcases ha with ha | ha
      · cases ha
      · exact absurd ha (by simp [JSNumber.Positive])
    | num r =>
      simp only [JSNumber.Positive] at hb
      rcases ha with ha | ha
      · simp only [JSNumber.zero, JSNumber.num.injEq] at ha
        subst ha
        simpa [JSNumber.add, JSNumber.Positive] using hb
      · simp only [JSNumber.Positive] at ha
        simp only [JSNumber.add, JSNumber.Positive]
        exact add_pos ha hb

/-- A step of the loop of `renderPieChart` leaves the entries of the other categories as
they are. -/
theorem objGet_pieStep_other (numberToString : JSNumber → String)
    (inheritedToString : String → String) (ce : List (String × JSValue)) (t : Transaction)
    (c : String) (hne : c ≠ t.category) :
    objGet (pieStep numberToString inheritedToString ce t) c = objGet ce c := by
  unfold pieStep
  simp only []
  repeat' split
  all_goals simp only [objGet_objAssign_other _ _ _ _ hne]

/-- The entry of the category of the transaction after one step of the loop of
`renderPieChart`, when that category is not an inherited name and its entry so far, if any,
is a positive number. -/
theorem objGet_pieStep_same (numberToString : JSNumber → String)
    (inheritedToString : String → String) (ce : List (String × JSValue)) (t : Transaction)
    (hplain : t.category ∉ protoKeys)
    (hce : ∀ v, objGet ce t.category = some v → ∃ n, v = .number n ∧ n.Positive) :
    objGet (pieStep numberToString inheritedToString ce t) t.category =
      some (.number ((entryNumber (objGet ce t.category)).add t.amount)) := by
  unfold pieStep
  cases hget : objGet ce t.category with
  | none =>
    simp only [if_neg hplain, objAssign_eq_objSet _ _ _ hplain, objGet_objSet_same,
      JSValue.plus, entryNumber]
  | some v =>
    obtain ⟨n, rfl, hn⟩ := hce v hget
    simp only [JSValue.falsy, positive_not_falsy n hn, Bool.false_eq_true, if_false, hget,
      objAssign_eq_objSet _ _ _ hplain, objGet_objSet_same, JSValue.plus, entryNumber]

/-- The entry of a category that is not an inherited name after the whole loop of
`renderPieChart`, when the amounts are positive and the entry at the start, if any, is a
positive number. -/
theorem objGet_foldl_pieStep (numberToString : JSNumber → String)
    (inheritedToString : String → String) (c : String) (hplain : c ∉ protoKeys)
    (l : List Transaction) :
    ∀ (ce : List (String × JSValue)),
      (∀ v, objGet ce c = some v → ∃ n, v = .number n ∧ n.Positive) →
      (∀ t ∈ l, t.amount.Positive) →
      objGet (l.foldl (pieStep numberToString inheritedToString) ce) c =
        if l.filter (fun t => decide (t.category = c)) = [] then objGet ce c
        else some (.number ((l.filter (fun t => decide (t.category = c))).foldl
          (fun sum t => sum.add t.amount) (entryNumber (objGet ce c)))) := by
  induction l with
  | nil => intro ce _ _; simp
  | cons t l ih =>
    intro ce hce hl
    have ht : t.amount.Positive := hl t (List.mem_cons_self _ _)
    have hl' : ∀ u ∈ l, u.amount.Positive := fun u hu => hl u (List.mem_cons_of_mem _ hu)
    by_cases hc : t.category = c
    · subst hc
      have hstep := objGet_pieStep_same numberToString inheritedToString ce t hplain hce
      have hce' : ∀ v, objGet (pieStep numberToString inheritedToString ce t) t.category
          = some v → ∃ n, v = .number n ∧ n.Positive := by
        intro v hv
        rw [hstep] at hv
        cases hv
        refine ⟨_, rfl, positive_add _ _ ?_ ht⟩
        cases hget : objGet ce t.category with
        | none => exact Or.inl rfl
        | some w =>
          obtain ⟨n, rfl, hn⟩ := hce w hget
          exact Or.inr hn
      rw [List.foldl_cons, ih _ hce' hl', hstep]
      simp only [decide_True, List.filter_cons_of_pos, List.foldl_cons, entryNumber]
      by_cases hnil : l.filter (fun u => decide (u.category = t.category)) = []
      · simp [hnil]
      · simp [hnil]
    · have hstep := objGet_pieStep_other numberToString inheritedToString ce t c
        (fun h => hc h.symm)
      rw [List.foldl_cons, ih _ (by rw [hstep]; exact hce) hl', hstep]
      simp [hc]

/-- Apart from the inherited names, `categoryExpenses` of `renderPieChart` is what C10
states: on a ledger whose amounts are all positive and for a category that is not in
`protoKeys`, there is an entry exactly when some expense transaction has that category; the
entry is the sum of the amounts of the expense transactions of the category, which is the
value of `calculateCategorySpent`; for a category without expense transactions
`calculateCategorySpent` returns zero. -/
theorem categoryExpenses_plain_category (numberToString : JSNumber → String)
    (inheritedToString : String → String) (transactions : List Transaction)
    (hpos : ∀ t ∈ transactions, t.amount.Positive) (category : String)
    (hplain : category ∉ protoKeys) :
    (category ∈ objKeys (categoryExpenses numberToString inheritedToString transactions) ↔
      ∃ t ∈ transactions, t.type = "expense" ∧ t.category = category) ∧
    (∀ v, objGet (categoryExpenses numberToString inheritedToString transactions) category
        = some v →
      v = .number (sumAmounts (transactions.filter
          (fun t => decide (t.type = "expense") && decide (t.category = category)))) ∧
      v = .number (calculateCategorySpent transactions category)) ∧
    ((¬ ∃ t ∈ transactions, t.type = "expense" ∧ t.category = category) →
      calculateCategorySpent transactions category = .num 0) := by
  have hfilter : (transactions.filter (fun t => decide (t.type = "expense"))).filter
        (fun t => decide (t.category = category)) =
      transactions.filter
        (fun t => decide (t.type = "expense") && decide (t.category = category)) := by
    rw [List.filter_filter]
    apply List.filter_congr
    intro t _
    exact Bool.and_comm _ _
  have hget := objGet_foldl_pieStep numberToString inheritedToString category hplain
    (transactions.filter (fun t => decide (t.type = "expense"))) []
    (fun v hv => by simp [objGet] at hv)
    (fun t ht => hpos t (List.mem_of_mem_filter ht))
  rw [hfilter] at hget
  have hnil : transactions.filter
        (fun t => decide (t.type = "expense") && decide (t.category = category)) = [] ↔
      ¬ ∃ t ∈ transactions, t.type = "expense" ∧ t.category = category := by
    rw [List.filter_eq_nil_iff]
    constructor
    · rintro h ⟨t, ht, h1, h2⟩
      exact h t ht (by simp [h1, h2])
    · intro h t ht hcond
      simp only [Bool.and_eq_true, decide_eq_true_eq] at hcond
      exact h ⟨t, ht, hcond⟩
  refine ⟨?_, ?_, ?_⟩
  · rw [mem_objKeys_iff]
    unfold categoryExpenses
    rw [hget]
    by_cases hn : transactions.filter
        (fun t => decide (t.type = "expense") && decide (t.category = category)) = []
    · rw [if_pos hn]
      constructor
      · rintro ⟨v, hv⟩
        simp [objGet] at hv
      · intro hex
        exact absurd hex (hnil.mp hn)
    · rw [if_neg hn]
      simp only [Option.some.injEq, exists_eq', true_iff]
      by_contra hc
      exact hn (hnil.mpr hc)
  · intro v hv
    unfold categoryExpenses at hv
    rw [hget] at hv
    by_cases hn : transactions.filter
        (fun t => decide (t.type = "expense") && decide (t.category = category)) = []
    · rw [if_pos hn] at hv
      simp [objGet] at hv
    · rw [if_neg hn] at hv
      simp only [objGet, entryNumber, Option.some.injEq] at hv
      exact ⟨hv.symm, hv.symm⟩
  · intro hnone
    unfold calculateCategorySpent
    rw [hnil.mpr hnone]
    rfl

/-- C10 fails on the code for the names inherited from `Object.prototype`: with one expense
of 500 in the category `__proto__`, `calculateCategorySpent` returns 500 but
`categoryExpenses` has no entry; in the category `constructor` the entry is not the sum 500
but the text of the inherited function followed by the text of 500. -/
theorem categoryExpenses_inherited_category (numberToString : JSNumber → String)
    (inheritedToString : String → String) :
    (JSNumber.num 500).Positive ∧
    categoryExpenses numberToString inheritedToString
      [⟨"1", "Rent", .num 500, "expense", "__proto__", "2024-01-01"⟩] = [] ∧
    calculateCategorySpent
      [⟨"1", "Rent", .num 500, "expense", "__proto__", "2024-01-01"⟩] "__proto__"
      = .num 500 ∧
    categoryExpenses numberToString inheritedToString
      [⟨"1", "Rent", .num 500, "expense", "constructor", "2024-01-01"⟩] =
      [("constructor",
        .string (inheritedToString "constructor" ++ numberToString (.num 500)))] ∧
    calculateCategorySpent
      [⟨"1", "Rent", .num 500, "expense", "constructor", "2024-01-01"⟩] "constructor"
      = .num 500 := by
  refine ⟨by decide, ?_, ?_, ?_, ?_⟩
  · simp [categoryExpenses, pieStep, objGet, objAssign, protoKeys]
  · simp [calculateCategorySpent, JSNumber.add, JSNumber.zero]
  · simp [categoryExpenses, pieStep, objGet, objSet, objAssign, protoKeys]
  · simp [calculateCategorySpent, JSNumber.add, JSNumber.zero]

/-! ### Monthly series -/

/-- The code units of a character followed by anything determine the character. -/
theorem utf16Char_append_inj (c d : Char) (r₁ r₂ : List Nat)
    (h : utf16Char c ++ r₁ = utf16Char d ++ r₂) : c = d ∧ r₁ = r₂ := by
  have hc : c.toNat < 55296 ∨ 57343 < c.toNat ∧ c.toNat < 1114112 := c.valid
  have hd : d.toNat < 55296 ∨ 57343 < d.toNat ∧ d.toNat < 1114112 := d.valid
  have hext : c.toNat = d.toNat → c = d := fun e => Char.ext (UInt32.ext e)
  unfold utf16Char at h
  by_cases h1 : c.toNat < 0x10000 <;> by_cases h2 : d.toNat < 0x10000
  · rw [if_pos h1, if_pos h2] at h
    simp only [List.singleton_append, List.cons.injEq] at h
    exact ⟨hext h.1, h.2⟩
  · rw [if_pos h1, if_neg h2] at h
    simp only [List.singleton_append, List.cons_append, List.nil_append,
      List.cons.injEq] at h
    omega
  · rw [if_neg h1, if_pos h2] at h
    simp only [List.singleton_append, List.cons_append, List.nil_append,
      List.cons.injEq] at h
    omega
  · rw [if_neg h1, if_neg h2] at h
    simp only [List.cons_append, List.nil_append, List.cons.injEq] at h
    refine ⟨hext ?_, h.2.2⟩
    omega

/-- Different strings have different UTF-16 code units. -/
theorem utf16_injective (a b : String) (h : utf16 a = utf16 b) : a = b := by
  have key : ∀ l₁ l₂ : List Char,
      l₁.flatMap utf16Char = l₂.flatMap utf16Char → l₁ = l₂ := by
    intro l₁
    induction l₁ with
    | nil =>
      intro l₂ h
      cases l₂ with
      | nil => rfl
      | cons d l₂ =>
        exfalso
        simp only [List.flatMap_nil, List.flatMap_cons] at h
        have hlen := congrArg List.length h
        unfold utf16Char at hlen
        split at hlen <;> simp at hlen
    | cons c l₁ ih =>
      intro l₂ h
      cases l₂ with
      | nil =>
        exfalso
        simp only [List.flatMap_nil, List.flatMap_cons] at h
        have hlen := congrArg List.length h
        unfold utf16Char at hlen
        split at hlen <;> simp at hlen
      | cons d l₂ =>
        simp only [List.flatMap_cons] at h
        obtain ⟨hcd, hrest⟩ := utf16Char_append_inj c d _ _ h
        rw [hcd, ih l₂ hrest]
  cases a with
  | mk da =>
    cases b with
    | mk db =>
      have := key da db h
      rw [this]

/-- Sorting distinct strings lists the same strings in strictly ascending order of their
UTF-16 code units. -/
theorem sort_spec (l : List String) (h : l.Nodup) :
    (sort l).Sorted (fun a b => utf16 a < utf16 b) ∧ (sort l).Nodup ∧
    ∀ m, m ∈ sort l ↔ m ∈ l := by
  have hiff : ∀ a b, strLe a b ↔ utf16 a ≤ utf16 b := fun a b => not_lt
  haveI : IsTotal String strLe :=
    ⟨fun a b => by rw [hiff, hiff]; exact le_total _ _⟩
  haveI : IsTrans String strLe :=
    ⟨fun a b c hab hbc => by
      rw [hiff] at hab hbc ⊢
      exact le_trans hab hbc⟩
  have hperm : (sort l).Perm l := List.perm_insertionSort strLe l
  have hnodup : (sort l).Nodup := hperm.nodup_iff.mpr h
  have hsorted : (sort l).Pairwise strLe := List.sorted_insertionSort strLe l
  have hboth : (sort l).Pairwise (fun a b => strLe a b ∧ a ≠ b) := hsorted.and hnodup
  refine ⟨?_, hnodup, fun m => hperm.mem_iff⟩
  refine List.Pairwise.imp ?_ hboth
  rintro a b ⟨hab, hne⟩
  exact lt_of_le_of_ne ((hiff a b).mp hab) (fun e => hne (utf16_injective a b e))

/-- One step of the loop of `renderBarChart` succeeds, keeps the keys distinct and free of
inherited names, and changes only the bucket of the month of the transaction, and only if
that month is not an inherited name. -/
theorem barStep_spec (md : List (String × Bucket)) (t : Transaction)
    (hown : ∀ k ∈ protoKeys, objGet md k = none) :
    ∃ md', barStep md t = some md' ∧ (NodupKeys md → NodupKeys md') ∧
      (∀ k ∈ protoKeys, objGet md' k = none) ∧
      ∀ m, m ∉ protoKeys → objGet md' m =
        if substring07 t.date = m then
          some (bucketStep ((objGet md m).getD ⟨JSNumber.zero, JSNumber.zero⟩) t)
        else objGet md m := by
  by_cases hproto : substring07 t.date ∈ protoKeys
  · have hget := hown _ hproto
    refine ⟨md, ?_, id, hown, ?_⟩
    · simp [barStep, hget, hproto]
    · intro m hm
      have hne : ¬ substring07 t.date = m := fun e => hm (e ▸ hproto)
      rw [if_neg hne]
  · have hother : ∀ (b : Bucket) (o : List (String × Bucket)),
        (∀ k ∈ protoKeys, objGet o k = none) →
        ∀ k ∈ protoKeys, objGet (objSet o (substring07 t.date) b) k = none := by
      intro b o ho k hk
      have hne : k ≠ substring07 t.date := by
        intro e
        rw [e] at hk
        exact hproto hk
      rw [objGet_objSet_other _ _ _ _ hne]
      exact ho k hk
    cases hget : objGet md (substring07 t.date) with
    | none =>
      by_cases hty : t.type = "income"
      · refine ⟨objSet (objSet md (substring07 t.date) ⟨JSNumber.zero, JSNumber.zero⟩)
            (substring07 t.date) ⟨JSNumber.zero.add t.amount, JSNumber.zero⟩, ?_,
          fun h => nodupKeys_objSet _ _ _ (nodupKeys_objSet _ _ _ h),
          hother _ _ (hother _ _ hown), ?_⟩
        · simp [barStep, hget, hproto, objGet_objSet_same, hty]
        · intro m _
          by_cases hm : substring07 t.date = m
          · subst hm
            simp [objGet_objSet_same, hget, bucketStep, hty]
          · rw [if_neg hm, objGet_objSet_other _ _ _ _ (Ne.symm hm),
              objGet_objSet_other _ _ _ _ (Ne.symm hm)]
      · refine ⟨objSet (objSet md (substring07 t.date) ⟨JSNumber.zero, JSNumber.zero⟩)
            (substring07 t.date) ⟨JSNumber.zero, JSNumber.zero.add t.amount⟩, ?_,
          fun h => nodupKeys_objSet _ _ _ (nodupKeys_objSet _ _ _ h),
          hother _ _ (hother _ _ hown), ?_⟩
        · simp [barStep, hget, hproto, objGet_objSet_same, hty]
        · intro m _
          by_cases hm : substring07 t.date = m
          · subst hm
            simp [objGet_objSet_same, hget, bucketStep, hty]
          · rw [if_neg hm, objGet_objSet_other _ _ _ _ (Ne.symm hm),
              objGet_objSet_other _ _ _ _ (Ne.symm hm)]
    | some b =>
      by_cases hty : t.type = "income"
      · refine ⟨objSet md (substring07 t.date) ⟨b.income.add t.amount, b.expense⟩, ?_,
          fun h => nodupKeys_objSet _ _ _ h, hother _ _ hown, ?_⟩
        · simp [barStep, hget, hty]
        · intro m _
          by_cases hm : substring07 t.date = m
          · subst hm
            simp [objGet_objSet_same, hget, bucketStep, hty]
          · rw [if_neg hm, objGet_objSet_other _ _ _ _ (Ne.symm hm)]
      · refine ⟨objSet md (substring07 t.date) ⟨b.income, b.expense.add t.amount⟩, ?_,
          fun h => nodupKeys_objSet _ _ _ h, hother _ _ hown, ?_⟩
        · simp [barStep, hget, hty]
        · intro m _
          by_cases hm : substring07 t.date = m
          · subst hm
            simp [objGet_objSet_same, hget, bucketStep, hty]
          · rw [if_neg hm, objGet_objSet_other _ _ _ _ (Ne.symm hm)]

/-- The whole loop of `renderBarChart` succeeds, keeps the keys distinct and free of
inherited names, and folds the transactions of each month that is not an inherited name into
the bucket of that month. -/
theorem groupByMonth_spec (l : List Transaction) :
    ∀ md : List (String × Bucket), (∀ k ∈ protoKeys, objGet md k = none) →
      ∃ md', groupByMonth l md = some md' ∧ (NodupKeys md → NodupKeys md') ∧
        (∀ k ∈ protoKeys, objGet md' k = none) ∧
        ∀ m, m ∉ protoKeys → objGet md' m =
          if l.filter (fun t => decide (substring07 t.date = m)) = [] then objGet md m
          else some ((l.filter (fun t => decide (substring07 t.date = m))).foldl bucketStep
            ((objGet md m).getD ⟨JSNumber.zero, JSNumber.zero⟩)) := by
  induction l with
  | nil => intro md hown; exact ⟨md, rfl, id, hown, fun m _ => by simp⟩
  | cons t l ih =>
    intro md hown
    obtain ⟨md₁, h1, hk1, ho1, hg1⟩ := barStep_spec md t hown
    obtain ⟨md₂, h2, hk2, ho2, hg2⟩ := ih md₁ ho1
    refine ⟨md₂, ?_, fun h => hk2 (hk1 h), ho2, ?_⟩
    · simp only [groupByMonth, h1]
      exact h2
    · intro m hplain
      rw [hg2 m hplain, hg1 m hplain]
      by_cases hm : substring07 t.date = m
      · simp only [hm, decide_True, List.filter_cons_of_pos, if_true, List.foldl_cons,
          Option.getD_some]
        by_cases hnil : l.filter (fun t => decide (substring07 t.date = m)) = []
        · simp [hnil]
        · simp [hnil]
      · simp [hm]

/-- Folding transactions into a bucket adds the income amounts to `income` and all other
amounts to `expense`, each in list order. -/
theorem foldl_bucketStep (l : List Transaction) (b : Bucket) :
    l.foldl bucketStep b =
      { income := (l.filter (fun t => decide (t.type = "income"))).foldl
          (fun sum t => sum.add t.amount) b.income
        expense := (l.filter (fun t => !decide (t.type = "income"))).foldl
          (fun sum t => sum.add t.amount) b.expense } := by
  induction l generalizing b with
  | nil => rfl
  | cons t l ih =>
    by_cases h : t.type = "income"
    · simp [List.foldl_cons, bucketStep, h, ih]
    · simp [List.foldl_cons, bucketStep, h, ih]

/-- Reading a field of the buckets of months that are all present succeeds. -/
theorem readBuckets_eq (md : List (String × Bucket)) (field : Bucket → JSNumber)
    (g : String → Bucket) (months : List String)
    (h : ∀ m ∈ months, objGet md m = some (g m)) :
    readBuckets md field months = some (months.map (fun m => field (g m))) := by
  induction months with
  | nil => rfl
  | cons m months ih =>
    have hm := h m (List.mem_cons_self _ _)
    have hrest := ih (fun k hk => h k (List.mem_cons_of_mem _ hk))
    simp [readBuckets, hm, hrest]

/-- Apart from the inherited names, the monthly series of `renderBarChart` is what C9 states:
on a ledger of incomes and expenses it is computed without error, lists the months in
strictly ascending order of their UTF-16 code units (so each at most once), lists exactly the
seven-character date prefixes of the ledger that are not in `protoKeys`, and gives for each
listed month the sum of the amounts of its income transactions and the sum of the amounts of
its expense transactions. -/
theorem monthlySeries_plain_months (transactions : List Transaction)
    (h : WellTyped transactions) :
    ∃ d, monthlySeries transactions = some d ∧
      d.months.Sorted (fun a b => utf16 a < utf16 b) ∧ d.months.Nodup ∧
      (∀ m, m ∈ d.months ↔
        m ∉ protoKeys ∧ ∃ t ∈ transactions, substring07 t.date = m) ∧
      d.incomeData = d.months.map (fun m => sumAmounts (transactions.filter
        (fun t => decide (substring07 t.date = m) && decide (t.type = "income")))) ∧
      d.expenseData = d.months.map (fun m => sumAmounts (transactions.filter
        (fun t => decide (substring07 t.date = m) && decide (t.type = "expense")))) := by
  obtain ⟨md, hrun, hkeys, hown, hget⟩ :=
    groupByMonth_spec transactions [] (fun _ _ => rfl)
  have hnodup : NodupKeys md := hkeys (by simp [NodupKeys, objKeys])
  obtain ⟨hsorted, hnd, hmem⟩ := sort_spec (objKeys md) hnodup
  have hnil : ∀ m, transactions.filter (fun t => decide (substring07 t.date = m)) = [] ↔
      ¬ ∃ t ∈ transactions, substring07 t.date = m := by
    intro m
    rw [List.filter_eq_nil_iff]
    constructor
    · rintro hall ⟨t, ht, hm⟩
      exact hall t ht (by simp [hm])
    · intro hno t ht hcond
      exact hno ⟨t, ht, by simpa using hcond⟩
  have hmonths : ∀ m, m ∈ sort (objKeys md) ↔
      m ∉ protoKeys ∧ ∃ t ∈ transactions, substring07 t.date = m := by
    intro m
    rw [hmem m, mem_objKeys_iff]
    by_cases hproto : m ∈ protoKeys
    · rw [hown m hproto]
      constructor
      · rintro ⟨v, hv⟩
        cases hv
      · rintro ⟨hno, -⟩
        exact absurd hproto hno
    · rw [hget m hproto]
      by_cases hn : transactions.filter (fun t => decide (substring07 t.date = m)) = []
      · rw [if_pos hn]
        constructor
        · rintro ⟨v, hv⟩
          simp [objGet] at hv
        · rintro ⟨-, hex⟩
          exact absurd hex ((hnil m).mp hn)
      · rw [if_neg hn]
        simp only [Option.some.injEq, exists_eq', true_iff]
        refine ⟨hproto, ?_⟩
        by_contra hc
        exact hn ((hnil m).mpr hc)
  have hbucket : ∀ m ∈ sort (objKeys md), objGet md m =
      some ((transactions.filter (fun t => decide (substring07 t.date = m))).foldl bucketStep
        ⟨JSNumber.zero, JSNumber.zero⟩) := by
    intro m hm
    obtain ⟨hproto, hex⟩ := (hmonths m).mp hm
    have hn : ¬ transactions.filter (fun t => decide (substring07 t.date = m)) = [] :=
      fun hn => (hnil m).mp hn hex
    rw [hget m hproto, if_neg hn]
    simp [objGet]
  have hincome := readBuckets_eq md Bucket.income _ (sort (objKeys md)) hbucket
  have hexpense := readBuckets_eq md Bucket.expense _ (sort (objKeys md)) hbucket
  refine ⟨⟨sort (objKeys md),
      (sort (objKeys md)).map (fun m => Bucket.income
        ((transactions.filter (fun t => decide (substring07 t.date = m))).foldl bucketStep
          ⟨JSNumber.zero, JSNumber.zero⟩)),
      (sort (objKeys md)).map (fun m => Bucket.expense
        ((transactions.filter (fun t => decide (substring07 t.date = m))).foldl bucketStep
          ⟨JSNumber.zero, JSNumber.zero⟩))⟩, ?_, hsorted, hnd, hmonths, ?_, ?_⟩
  · simp only [monthlySeries, hrun, hincome, hexpense]
  · apply List.map_congr_left
    intro m _
    rw [foldl_bucketStep]
    simp only [sumAmounts, List.filter_filter]
    congr 1
    apply List.filter_congr
    intro t _
    exact Bool.and_comm _ _
  · apply List.map_congr_left
    intro m _
    rw [foldl_bucketStep]
    have hwt : WellTyped (transactions.filter (fun t => decide (substring07 t.date = m))) :=
      fun t ht => h t (List.mem_of_mem_filter ht)
    rw [filter_not_income_eq_expense _ hwt]
    simp only [sumAmounts, List.filter_filter]
    congr 1
    apply List.filter_congr
    intro t _
    exact Bool.and_comm _ _

/-- C9 fails on the code for a date whose first seven characters are `valueOf`, a name
inherited from `Object.prototype`: the ledger of one such income is well typed and has the
date prefix `valueOf`, but the monthly series of `renderBarChart` has no bucket at all. -/
theorem monthlySeries_inherited_month :
    WellTyped [⟨"1", "Salary", .num 500, "income", "Work", "valueOf"⟩] ∧
    (∃ t ∈ [(⟨"1", "Salary", .num 500, "income", "Work", "valueOf"⟩ : Transaction)],
      substring07 t.date = "valueOf") ∧
    monthlySeries [⟨"1", "Salary", .num 500, "income", "Work", "valueOf"⟩] =
      some ⟨[], [], []⟩ := by
  refine ⟨by decide, ⟨_, List.mem_singleton.mpr rfl, by decide⟩, ?_⟩
  decide

end ExpenseTracker
